import Mathlib

/-!
Shallow embedding of the MonitorAgent backend (FastAPI live-stream
transcription service) and proofs about its observable behaviour.

The embedding follows the Python sources:
* `backend/services/transcription_service.py` — segment watcher loop,
  transcription pipeline, summary fallback, timestamp extraction,
  transcript retrieval;
* `backend/services/stream_service.py` — capture supervision loop with
  retry bound, ffmpeg subprocess stop logic;
* `backend/utils/url_fetcher.py` — cached manifest-URL fetcher.

Stateful loops are modelled by explicit state passing over a list of
environment outcomes (directory listings seen at each poll, results of
external calls); machine-level I/O is abstracted to those outcomes.
-/

namespace MonitorAgent

/-! ## Segment watcher (`TranscriptionService._check_new_files`)

The monitoring loop of `start_monitoring` calls `_check_new_files` every
polling round.  `_check_new_files` iterates over the sorted directory
listing and, for each file not in `processed_files`, first awaits
`_process_audio_file(audio_file)` and then runs
`self.processed_files.add(audio_file)`.  The observable events of one
round are recorded as a trace. -/

/-- Observable events of the watcher loop and of `_process_audio_file`. -/
inductive Event where
  /-- the loop calls `_process_audio_file(f)` -/
  | dispatch (f : String)
  /-- `_process_audio_file` appends a result dict to `latest_transcripts` -/
  | record (f : String)
  /-- a push of a completed record to a broadcast callback (never emitted
      by the source: `_process_audio_file` contains no such call) -/
  | broadcast (f : String)
  /-- the loop runs `self.processed_files.add(f)` -/
  | markProcessed (f : String)
  deriving DecidableEq, Repr

/-- Effects of `_process_audio_file(f)`: `tr f` is the transcription
outcome (`none` = `_transcribe_audio` returned `None` after an internal
exception).  `if not transcript: return` drops `None` and the empty
string; otherwise a result dict is appended to `latest_transcripts`.
No broadcast call exists in the function body, and its `try/except`
swallows every exception, so the caller observes a normal return. -/
def process_audio_file (tr : String → Option String) (f : String) : List Event :=
  match tr f with
  | none => []
  | some t => if t = "" then [] else [Event.record f]

/-- Event trace of one `_check_new_files` pass over the listing `files`,
with `processed` the current contents of `processed_files`:
`if audio_file not in self.processed_files: await self._process_audio_file(audio_file); self.processed_files.add(audio_file)`. -/
def check_new_files_trace (tr : String → Option String) :
    List String → List String → List Event
  | [], _ => []
  | f :: fs, processed =>
    if f ∈ processed then check_new_files_trace tr fs processed
    else
      Event.dispatch f :: (process_audio_file tr f ++
        Event.markProcessed f :: check_new_files_trace tr fs (f :: processed))

/-- The `processed_files` set after one `_check_new_files` pass
(represented as a list; only membership matters). -/
def check_new_files_processed : List String → List String → List String
  | [], processed => processed
  | f :: fs, processed =>
    if f ∈ processed then check_new_files_processed fs processed
    else check_new_files_processed fs (f :: processed)

/-- The monitoring loop of `start_monitoring`: one `_check_new_files`
pass per polling round; `polls` is the directory listing observed at
each round. -/
def run_polls (tr : String → Option String) :
    List (List String) → List String → List Event
  | [], _ => []
  | files :: rest, processed =>
    check_new_files_trace tr files processed ++
      run_polls tr rest (check_new_files_processed files processed)

/-- A transcription oracle for concrete evaluations: every transcription
attempt fails (returns `None`). -/
def trNone : String → Option String := fun _ => none

/-! ### Lemmas about one watcher pass -/

theorem mem_check_new_files_processed (files processed : List String) (f : String) :
    f ∈ check_new_files_processed files processed ↔ f ∈ processed ∨ f ∈ files := by
  induction files generalizing processed with
  | nil => simp [check_new_files_processed]
  | cons g fs ih =>
    by_cases hg : g ∈ processed
    · simp only [check_new_files_processed, if_pos hg, ih, List.mem_cons]
      constructor
      · rintro (h | h)
        · exact Or.inl h
        · exact Or.inr (Or.inr h)
      · rintro (h | rfl | h)
        · exact Or.inl h
        · exact Or.inl hg
        · exact Or.inr h
    · simp only [check_new_files_processed, if_neg hg, ih, List.mem_cons]
      tauto

theorem dispatch_not_mem_process_audio_file
    (tr : String → Option String) (f g : String) :
    Event.dispatch f ∉ process_audio_file tr g := by
  unfold process_audio_file
  cases tr g with
  | none => simp
  | some t =>
    by_cases ht : t = "" <;> simp [ht]

theorem markProcessed_not_mem_process_audio_file
    (tr : String → Option String) (f g : String) :
    Event.markProcessed f ∉ process_audio_file tr g := by
  unfold process_audio_file
  cases tr g with
  | none => simp
  | some t =>
    by_cases ht : t = "" <;> simp [ht]

theorem dispatch_mem_check_new_files_trace
    (tr : String → Option String) (files processed : List String) (f : String) :
    Event.dispatch f ∈ check_new_files_trace tr files processed ↔
      f ∈ files ∧ f ∉ processed := by
  induction files generalizing processed with
  | nil => simp [check_new_files_trace]
  | cons g fs ih =>
    by_cases hg : g ∈ processed
    · simp only [check_new_files_trace, if_pos hg, ih, List.mem_cons]
      constructor
      · rintro ⟨h, hp⟩; exact ⟨Or.inr h, hp⟩
      · rintro ⟨h | h, hp⟩
        · exact absurd hg (h ▸ hp)
        · exact ⟨h, hp⟩
    · simp only [check_new_files_trace, if_neg hg, List.mem_cons, List.mem_append]
      constructor
      · rintro (h | h | h | h)
        · cases h; exact ⟨Or.inl rfl, hg⟩
        · exact absurd h (dispatch_not_mem_process_audio_file tr f g)
        · cases h
        · rcases (ih (g :: processed)).mp h with ⟨hfs, hp⟩
          simp only [List.mem_cons, not_or] at hp
          exact ⟨Or.inr hfs, hp.2⟩
      · rintro ⟨hf | hf, hp⟩
        · exact Or.inl (by rw [hf])
        · by_cases hfg : f = g
          · exact Or.inl (by rw [hfg])
          · refine Or.inr (Or.inr (Or.inr ((ih (g :: processed)).mpr ⟨hf, ?_⟩)))
            simp only [List.mem_cons, not_or]
            exact ⟨hfg, hp⟩

/-- Exact number of `dispatch f` events in one pass: `1` when `f` is
listed and unprocessed, `0` otherwise. -/
theorem count_dispatch_check_new_files_trace
    (tr : String → Option String) (files processed : List String) (f : String) :
    (check_new_files_trace tr files processed).count (Event.dispatch f) =
      if f ∈ files ∧ f ∉ processed then 1 else 0 := by
  induction files generalizing processed with
  | nil => simp [check_new_files_trace]
  | cons g fs ih =>
    by_cases hg : g ∈ processed
    · rw [check_new_files_trace, if_pos hg, ih]
      by_cases hf : f ∈ fs ∧ f ∉ processed
      · rw [if_pos hf, if_pos ⟨List.mem_cons_of_mem g hf.1, hf.2⟩]
      · rw [if_neg hf, if_neg]
        rintro ⟨hmem, hp⟩
        rcases List.mem_cons.mp hmem with rfl | hmem
        · exact hp hg
        · exact hf ⟨hmem, hp⟩
    · rw [check_new_files_trace, if_neg hg]
      rw [List.count_cons, List.count_append, List.count_cons, ih]
      rw [List.count_eq_zero.mpr (dispatch_not_mem_process_audio_file tr f g)]
      by_cases hfg : f = g
      · subst hfg
        have h1 : f ∉ f :: processed → False := fun h => h (List.mem_cons_self f processed)
        rw [if_neg (by rintro ⟨_, hp⟩; exact h1 hp)]
        simp [hg]
      · have hne : (Event.dispatch g == Event.dispatch f) = false := by
          simp [BEq.beq]; exact fun h => hfg h.symm
        have hne2 : (Event.markProcessed g == Event.dispatch f) = false := by
          simp [BEq.beq]
        rw [hne, hne2]
        by_cases hf : f ∈ fs ∧ f ∉ g :: processed
        · have : f ∈ g :: fs ∧ f ∉ processed := by
            refine ⟨List.mem_cons_of_mem g hf.1, ?_⟩
            have := hf.2
            simp only [List.mem_cons, not_or] at this
            exact this.2
          rw [if_pos hf, if_pos this]
          simp
        · have : ¬(f ∈ g :: fs ∧ f ∉ processed) := by
            rintro ⟨hmem, hp⟩
            rcases List.mem_cons.mp hmem with rfl | hmem
            · exact hfg rfl
            · exact hf ⟨hmem, by simp [hfg, hp]⟩
          rw [if_neg hf, if_neg this]
          simp

theorem dispatch_not_mem_run_polls
    (tr : String → Option String) (polls : List (List String))
    (processed : List String) (f : String) (hf : f ∈ processed) :
    Event.dispatch f ∉ run_polls tr polls processed := by
  induction polls generalizing processed with
  | nil => simp [run_polls]
  | cons files rest ih =>
    simp only [run_polls, List.mem_append, not_or]
    refine ⟨?_, ?_⟩
    · rw [dispatch_mem_check_new_files_trace]
      rintro ⟨_, hp⟩; exact hp hf
    · exact ih _ ((mem_check_new_files_processed files processed f).mpr (Or.inl hf))

theorem count_dispatch_run_polls_le
    (tr : String → Option String) (polls : List (List String))
    (processed : List String) (f : String) :
    (run_polls tr polls processed).count (Event.dispatch f) +
      (if f ∈ processed then 1 else 0) ≤ 1 := by
  induction polls generalizing processed with
  | nil =>
    simp only [run_polls, List.count_nil]
    split <;> omega
  | cons files rest ih =>
    rw [run_polls, List.count_append, count_dispatch_check_new_files_trace]
    have h2 := ih (check_new_files_processed files processed)
    simp only [mem_check_new_files_processed files processed f] at h2
    by_cases hp : f ∈ processed
    · rw [if_neg (by rintro ⟨_, h⟩; exact h hp), if_pos hp]
      rw [if_pos (Or.inl hp)] at h2
      omega
    · rw [if_neg hp]
      by_cases hmem : f ∈ files
      · rw [if_pos ⟨hmem, hp⟩]
        rw [if_pos (Or.inr hmem)] at h2
        omega
      · rw [if_neg (by rintro ⟨h, _⟩; exact hmem h)]
        rw [if_neg (by rintro (h | h); exacts [hp h, hmem h])] at h2
        omega

theorem sublist_append_pre {α : Type _} (m : List α) {s t : List α} (h : List.Sublist s t) :
    List.Sublist s (m ++ t) := by
  induction m with
  | nil => exact h
  | cons a m ih => exact List.Sublist.cons a ih

/-- **C1**: a segment file is dispatched to `_process_audio_file` at most
once per process lifetime of the monitoring loop: once its identifier is
in `processed_files`, no later poll dispatches it again, and over any run
starting from an empty set each file is dispatched at most once,
regardless of the polling cadence (the sequence of listings) and of the
transcription outcomes `tr` (a failed transcription is still marked). -/
theorem c1_segment_dispatched_at_most_once :
    (∀ (tr : String → Option String) (polls : List (List String))
        (processed : List String) (f : String), f ∈ processed →
        Event.dispatch f ∉ run_polls tr polls processed) ∧
    (∀ (tr : String → Option String) (polls : List (List String)) (f : String),
        (run_polls tr polls []).count (Event.dispatch f) ≤ 1) := by
  constructor
  · exact fun tr polls processed f hf => dispatch_not_mem_run_polls tr polls processed f hf
  · intro tr polls f
    have h := count_dispatch_run_polls_le tr polls [] f
    simpa using h

theorem c1_segment_dispatched_at_most_once_witness :
    Event.dispatch "audio_20250101_120000.wav" ∉
      run_polls trNone [["audio_20250101_120000.wav"]] ["audio_20250101_120000.wav"] ∧
    (run_polls trNone [["audio_20250101_120000.wav"], ["audio_20250101_120000.wav"]]
        []).count (Event.dispatch "audio_20250101_120000.wav") ≤ 1 :=
  ⟨c1_segment_dispatched_at_most_once.1 trNone _ _ _ (by decide),
   c1_segment_dispatched_at_most_once.2 trNone _ _⟩

/-- **C3** (counterexample): the claim says the most recently created,
still-open segment is never dispatched.  `_check_new_files` consults only
the directory listing and `processed_files` — it has no quiescence check
and never compares against the capture tool's current output name — so in
a round whose listing ends with the segment ffmpeg is still writing
(`audio_20250101_120100.wav`, the latest timestamp), that segment is
dispatched. -/
theorem c3_counterexample_active_segment_dispatched :
    Event.dispatch "audio_20250101_120100.wav" ∈
      check_new_files_trace trNone
        ["audio_20250101_120000.wav", "audio_20250101_120100.wav"] [] := by
  decide

/-- **C3** (amended): `_check_new_files` dispatches every file of the
listing that is not in `processed_files`, including the most recent,
possibly still-being-written segment; no readiness or quiescence
condition is applied. -/
theorem c3_every_unprocessed_listed_file_dispatched
    (tr : String → Option String) (files processed : List String) (f : String)
    (hmem : f ∈ files) (hproc : f ∉ processed) :
    Event.dispatch f ∈ check_new_files_trace tr files processed :=
  (dispatch_mem_check_new_files_trace tr files processed f).mpr ⟨hmem, hproc⟩

theorem c3_every_unprocessed_listed_file_dispatched_witness :
    Event.dispatch "audio_20250101_120100.wav" ∈
      check_new_files_trace trNone
        ["audio_20250101_120000.wav", "audio_20250101_120100.wav"]
        ["audio_20250101_120000.wav"] :=
  c3_every_unprocessed_listed_file_dispatched trNone _ _ _ (by decide) (by decide)

/-- **C4** (counterexample): the claim says the identifier is added to
`processed_files` strictly before the dispatch.  For a round handling the
single new file `audio_20250101_120000.wav` the trace is
`[dispatch, markProcessed]`: the add-to-set event does not precede the
dispatch event. -/
theorem c4_counterexample_dispatch_precedes_add :
    check_new_files_trace trNone ["audio_20250101_120000.wav"] [] =
      [Event.dispatch "audio_20250101_120000.wav",
       Event.markProcessed "audio_20250101_120000.wav"] ∧
    ¬ List.Sublist
        [Event.markProcessed "audio_20250101_120000.wav",
         Event.dispatch "audio_20250101_120000.wav"]
        (check_new_files_trace trNone ["audio_20250101_120000.wav"] []) := by
  decide

/-- **C4** (amended): for every unprocessed listed segment the watcher
dispatches first and adds the identifier to `processed_files`
immediately afterwards: the events `dispatch f` and `markProcessed f`
occur in the trace in that order (and, since `_process_audio_file`
catches its own exceptions, the add happens even when transcription
fails). -/
theorem c4_dispatch_then_add
    (tr : String → Option String) (files processed : List String) (f : String)
    (hmem : f ∈ files) (hproc : f ∉ processed) :
    List.Sublist [Event.dispatch f, Event.markProcessed f]
      (check_new_files_trace tr files processed) := by
  induction files generalizing processed with
  | nil => cases hmem
  | cons g fs ih =>
    rw [check_new_files_trace]
    by_cases hg : g ∈ processed
    · rw [if_pos hg]
      rcases List.mem_cons.mp hmem with rfl | hmem'
      · exact absurd hg hproc
      · exact ih processed hmem' hproc
    · rw [if_neg hg]
      by_cases hfg : f = g
      · subst hfg
        exact List.Sublist.cons₂ _
          (sublist_append_pre _ (List.Sublist.cons₂ _ (List.nil_sublist _)))
      · have hmem' : f ∈ fs := by
          rcases List.mem_cons.mp hmem with h | h
          · exact absurd h hfg
          · exact h
        have hproc' : f ∉ g :: processed := by
          simp only [List.mem_cons, not_or]
          exact ⟨hfg, hproc⟩
        exact List.Sublist.cons _
          (sublist_append_pre _ (List.Sublist.cons _ (ih (g :: processed) hmem' hproc')))

theorem c4_dispatch_then_add_witness :
    List.Sublist
      [Event.dispatch "audio_20250101_120000.wav",
       Event.markProcessed "audio_20250101_120000.wav"]
      (check_new_files_trace trNone
        ["audio_20250101_120000.wav", "audio_20250101_120100.wav"] []) :=
  c4_dispatch_then_add trNone _ _ _ (by decide) (by decide)

/-- Parameters of `TranscriptionService.__init__`
(transcription_service.py line 26): `def __init__(self, model_name: str = "base")`. -/
def transcriptionServiceInitParams : List String := ["self", "model_name"]

/-- Keyword arguments of the constructor call `TranscriptionService(
broadcast_callback=broadcast_new_transcript)` in app.py line 47. -/
def appStartKeywordArgs : List String := ["broadcast_callback"]

/-- **C5**: the claim says every completed record is both appended to the
in-memory sequence and pushed to the Broadcaster.  In the source,
`_process_audio_file` appends the result to `latest_transcripts` but
contains no broadcast/callback invocation whatsoever (for any
transcription outcome), and the `broadcast_callback` keyword that
app.py passes when constructing the service is not among the accepted
`__init__` parameters. -/
theorem c5_record_appended_but_never_broadcast :
    (∀ (tr : String → Option String) (f : String),
        Event.broadcast f ∉ process_audio_file tr f) ∧
    process_audio_file (fun _ => some "hello world") "audio_20250101_120000.wav" =
      [Event.record "audio_20250101_120000.wav"] ∧
    "broadcast_callback" ∈ appStartKeywordArgs ∧
    "broadcast_callback" ∉ transcriptionServiceInitParams := by
  refine ⟨?_, by decide, by decide, by decide⟩
  intro tr f
  unfold process_audio_file
  cases tr f with
  | none => simp
  | some t => by_cases ht : t = "" <;> simp [ht]

/-! ## Capture supervision (`backend/services/stream_service.py`)

`StreamService` keeps `is_running`, `process`, `retry_count` and
`max_retries` (initialised to 3).  `_fetch_and_process_stream` loops
`while self.is_running and self.retry_count < self.max_retries`; each
iteration either fails to obtain a URL (`retry_count += 1`, sleep,
continue), runs ffmpeg until it exits (a requested stop has set
`is_running = False`, so the loop breaks; an unrequested exit does
`retry_count += 1` and continues), or hits an exception
(`retry_count += 1`; re-raised once `retry_count >= max_retries`).
`start_stream` wraps the loop in `try/except`; only the `except` branch
sets `is_running = False`. -/

/-- State of a `StreamService` instance. -/
structure StreamState where
  is_running : Bool
  /-- `self.process`: `some ()` when an ffmpeg subprocess handle is held -/
  process : Option Unit
  retry_count : Nat
  max_retries : Nat
  deriving DecidableEq, Repr

/-- The state of a freshly constructed `StreamService` (`__init__`). -/
def initStreamState : StreamState :=
  { is_running := false, process := none, retry_count := 0, max_retries := 3 }

/-- Environment outcome of one iteration of `_fetch_and_process_stream`. -/
inductive StreamOutcome where
  /-- `get_fresh_url` returned a falsy value -/
  | urlNone
  /-- ffmpeg ran and exited after `stop_stream()` set `is_running = False` -/
  | stopRequested
  /-- ffmpeg exited on its own while `is_running` was still true -/
  | unexpectedExit
  /-- the iteration body raised an exception -/
  | raised
  deriving DecidableEq, Repr

/-- `_fetch_and_process_stream`, one environment outcome per loop
iteration; returns the final state and whether an exception propagated
out of the loop (the `raise` taken once `retry_count >= max_retries` in
the `except` branch).  An empty outcome list means the observation stops
while the loop is still live. -/
def fetch_and_process_stream (st : StreamState) : List StreamOutcome → StreamState × Bool
  | [] => (st, false)
  | o :: rest =>
    if st.is_running ∧ st.retry_count < st.max_retries then
      match o with
      | .urlNone =>
        fetch_and_process_stream { st with retry_count := st.retry_count + 1 } rest
      | .stopRequested => ({ st with is_running := false, process := some () }, false)
      | .unexpectedExit =>
        fetch_and_process_stream
          { st with retry_count := st.retry_count + 1, process := some () } rest
      | .raised =>
        let st' := { st with retry_count := st.retry_count + 1 }
        if st'.retry_count < st'.max_retries then fetch_and_process_stream st' rest
        else (st', true)
    else (st, false)

/-- `start_stream`: sets `is_running = True`, runs the loop, and only its
`except` branch (reached when the loop re-raised) sets `is_running = False`. -/
def start_stream (st : StreamState) (outs : List StreamOutcome) : StreamState :=
  let st0 := { st with is_running := true }
  let res := fetch_and_process_stream st0 outs
  if res.2 then { res.1 with is_running := false } else res.1

theorem fetch_and_process_stream_cons (st : StreamState) (o : StreamOutcome)
    (rest : List StreamOutcome) :
    fetch_and_process_stream st (o :: rest) =
      if st.is_running ∧ st.retry_count < st.max_retries then
        match o with
        | .urlNone =>
          fetch_and_process_stream { st with retry_count := st.retry_count + 1 } rest
        | .stopRequested => ({ st with is_running := false, process := some () }, false)
        | .unexpectedExit =>
          fetch_and_process_stream
            { st with retry_count := st.retry_count + 1, process := some () } rest
        | .raised =>
          let st' := { st with retry_count := st.retry_count + 1 }
          if st'.retry_count < st'.max_retries then fetch_and_process_stream st' rest
          else (st', true)
      else (st, false) := by
  cases o <;> rfl

theorem fetch_loop_retry_bound (outs : List StreamOutcome) (st : StreamState)
    (h : st.retry_count ≤ st.max_retries) :
    (fetch_and_process_stream st outs).1.retry_count ≤
        (fetch_and_process_stream st outs).1.max_retries ∧
      (fetch_and_process_stream st outs).1.max_retries = st.max_retries := by
  induction outs generalizing st with
  | nil => exact ⟨h, rfl⟩
  | cons o rest ih =>
    rw [fetch_and_process_stream_cons]
    by_cases hc : st.is_running ∧ st.retry_count < st.max_retries
    · rw [if_pos hc]
      cases o with
      | urlNone => exact ih _ (by simpa using hc.2)
      | stopRequested => exact ⟨h, rfl⟩
      | unexpectedExit => exact ih _ (by simpa using hc.2)
      | raised =>
        dsimp only
        by_cases hlt : st.retry_count + 1 < st.max_retries
        · rw [if_pos hlt]
          exact ih _ (by simpa using Nat.le_of_lt hlt)
        · rw [if_neg hlt]
          exact ⟨by simpa using hc.2, rfl⟩
    · rw [if_neg hc]
      exact ⟨h, rfl⟩

theorem fetch_loop_stops_at_exhaustion (outs : List StreamOutcome) (st : StreamState)
    (h : st.max_retries ≤ st.retry_count) :
    fetch_and_process_stream st outs = (st, false) := by
  cases outs with
  | nil => rfl
  | cons o rest =>
    rw [fetch_and_process_stream_cons, if_neg]
    rintro ⟨_, hlt⟩
    omega

/-- **C2** (counterexample): the claim says that when `retryCount`
reaches `maxRetries` the session transitions to a fatal Stopped state
(`is_running` false).  With `max_retries = 3` and three consecutive
URL-fetch failures, the loop stops with `retry_count = max_retries`, no
exception propagates, and `start_stream` leaves `is_running = true`. -/
theorem c2_counterexample_exhaustion_leaves_running :
    (start_stream initStreamState [.urlNone, .urlNone, .urlNone]).retry_count =
        (start_stream initStreamState [.urlNone, .urlNone, .urlNone]).max_retries ∧
      (start_stream initStreamState [.urlNone, .urlNone, .urlNone]).is_running = true := by
  decide

/-- **C2** (amended): the supervision loop never performs more than
`max_retries` retries (`retry_count` never exceeds `max_retries`), once
`retry_count` has reached `max_retries` the loop is terminal (no further
outcome is consumed, whatever happens next), and the session is marked
not running on exhaustion only along the exception path, where the
re-raise reaches `start_stream`'s handler; on the other exhaustion paths
`is_running` simply stays as it was. -/
theorem c2_retries_bounded_and_exhaustion_terminal :
    (∀ (outs : List StreamOutcome) (st : StreamState),
        st.retry_count ≤ st.max_retries →
        (fetch_and_process_stream st outs).1.retry_count ≤ st.max_retries) ∧
    (∀ (outs : List StreamOutcome) (st : StreamState),
        st.max_retries ≤ st.retry_count →
        fetch_and_process_stream st outs = (st, false)) ∧
    (∀ (outs : List StreamOutcome) (st : StreamState),
        (fetch_and_process_stream { st with is_running := true } outs).2 = true →
        (start_stream st outs).is_running = false) := by
  refine ⟨?_, fetch_loop_stops_at_exhaustion, ?_⟩
  · intro outs st h
    have hb := fetch_loop_retry_bound outs st h
    omega
  · intro outs st h
    unfold start_stream
    rw [if_pos h]

theorem c2_retries_bounded_and_exhaustion_terminal_witness :
    (fetch_and_process_stream { initStreamState with is_running := true }
        [.urlNone, .urlNone, .urlNone, .urlNone]).1.retry_count ≤ 3 ∧
    fetch_and_process_stream
        { is_running := true, process := none, retry_count := 3, max_retries := 3 }
        [.urlNone] =
      ({ is_running := true, process := none, retry_count := 3, max_retries := 3 }, false) ∧
    (start_stream initStreamState [.raised, .raised, .raised]).is_running = false :=
  ⟨c2_retries_bounded_and_exhaustion_terminal.1 _ _ (by decide),
   c2_retries_bounded_and_exhaustion_terminal.2.1 _ _ (by decide),
   c2_retries_bounded_and_exhaustion_terminal.2.2 _ _ (by decide)⟩

/-! ## `stop_stream` -/

/-- Subprocess operations `stop_stream` attempts. -/
inductive StopOp where
  | terminate
  | wait
  | kill
  deriving DecidableEq, Repr

/-- `stop_stream`: the `try` body first sets `is_running = False`; when
`self.process` is truthy it calls `terminate()`, awaits `wait()` under a
5-second timeout (on `TimeoutError` it kills and waits again, `timedOut`),
then clears `self.process`.  `procDead` says whether the held handle's
transport is already finalized (the ffmpeg process exited earlier), in
which case `terminate()` raises `ProcessLookupError`; the surrounding
`except Exception` branch logs and re-raises, and `self.process` is left
set.  Result: final state, attempted subprocess ops, and whether the
call re-raised.  With `process = None` nothing in the body can raise. -/
def stop_stream (st : StreamState) (procDead timedOut : Bool) :
    StreamState × List StopOp × Bool :=
  match st.process with
  | none => ({ st with is_running := false }, [], false)
  | some _ =>
    if procDead then ({ st with is_running := false }, [.terminate], true)
    else
      ({ st with is_running := false, process := none },
       (if timedOut then [.terminate, .wait, .kill, .wait] else [.terminate, .wait]),
       false)

/-- A reachable state with a stale subprocess handle: three unexpected
ffmpeg exits exhaust the retries of `_fetch_and_process_stream`, leaving
`is_running` true and the dead process handle still in `self.process`. -/
def staleStreamState : StreamState :=
  (fetch_and_process_stream { initStreamState with is_running := true }
    [.unexpectedExit, .unexpectedExit, .unexpectedExit]).1

/-- **C8** (counterexample): the claim says `stop_stream` never raises
on repeated or out-of-order calls.  In the reachable post-exhaustion
state `staleStreamState` the dead ffmpeg handle is still held, so
`stop_stream` attempts `terminate()`, which raises `ProcessLookupError`;
the `except` branch re-raises and leaves `self.process` set, and the
repeated `stop_stream` call raises again. -/
theorem c8_counterexample_stale_handle_raises :
    staleStreamState.is_running = true ∧ staleStreamState.process = some () ∧
    (stop_stream staleStreamState true false).2.2 = true ∧
    (stop_stream staleStreamState true false).1.process = some () ∧
    (stop_stream (stop_stream staleStreamState true false).1 true false).2.2 = true := by
  decide

/-- **C8** (amended): `stop_stream` invoked with no subprocess present
returns successfully, performs no subprocess operation and cannot raise
(it only sets `is_running = False`); after any stop that did not raise,
`self.process` is cleared, so a repeated call performs no subprocess
operation and cannot raise either; but a stop holding a finalized dead
handle re-raises the `terminate()` failure and leaves `self.process`
set, so the repeated call raises again. -/
theorem c8_stop_stream_idempotent_unless_raise :
    (∀ (st : StreamState) (pd tm : Bool), st.process = none →
        stop_stream st pd tm = ({ st with is_running := false }, [], false)) ∧
    (∀ (st : StreamState) (pd tm pd' tm' : Bool),
        (stop_stream st pd tm).2.2 = false →
        (stop_stream (stop_stream st pd tm).1 pd' tm').2.1 = [] ∧
          (stop_stream (stop_stream st pd tm).1 pd' tm').2.2 = false) ∧
    (∀ (st : StreamState) (pd tm : Bool), st.process.isSome = true → pd = true →
        (stop_stream st pd tm).2.2 = true ∧
          (stop_stream st pd tm).1.process = st.process) := by
  refine ⟨?_, ?_, ?_⟩
  · intro st pd tm hp
    unfold stop_stream
    rw [hp]
  · intro st pd tm pd' tm' hok
    cases hp : st.process with
    | none =>
      unfold stop_stream
      rw [hp]
      exact ⟨rfl, rfl⟩
    | some u =>
      unfold stop_stream at hok ⊢
      rw [hp] at hok ⊢
      cases pd with
      | true => simp at hok
      | false => exact ⟨rfl, rfl⟩
  · intro st pd tm hp hpd
    subst hpd
    cases hp2 : st.process with
    | none => rw [hp2] at hp; simp at hp
    | some u =>
      unfold stop_stream
      rw [hp2]
      exact ⟨rfl, rfl⟩

theorem c8_stop_stream_idempotent_unless_raise_witness :
    stop_stream initStreamState false false =
        ({ is_running := false, process := none, retry_count := 0, max_retries := 3 },
          [], false) ∧
      ((stop_stream
          (stop_stream
            { is_running := true, process := some (), retry_count := 0, max_retries := 3 }
            false false).1 false true).2.1 = [] ∧
        (stop_stream
          (stop_stream
            { is_running := true, process := some (), retry_count := 0, max_retries := 3 }
            false false).1 false true).2.2 = false) ∧
      ((stop_stream staleStreamState true false).2.2 = true ∧
        (stop_stream staleStreamState true false).1.process = staleStreamState.process) :=
  ⟨c8_stop_stream_idempotent_unless_raise.1 _ false false rfl,
   c8_stop_stream_idempotent_unless_raise.2.1 _ false false false true (by decide),
   c8_stop_stream_idempotent_unless_raise.2.2 _ _ false (by decide) rfl⟩

/-! ## Manifest-URL fetcher (`backend/utils/url_fetcher.py`)

`StreamURLFetcher` keeps `current_url` and `url_expiry` (both `None`
initially).  `get_fresh_url(force_refresh=False)` returns the cached URL
without fetching when `not force_refresh and self.current_url and
self.url_expiry` and `datetime.now() < self.url_expiry`; otherwise it
runs `_fetch_url_from_page()` and, when the result is truthy, caches it
with expiry `now + timedelta(minutes=15)`.  Time is modelled as `Nat`
(seconds). -/

/-- State of a `StreamURLFetcher` instance. -/
structure FetcherState where
  current_url : Option String
  url_expiry : Option Nat
  deriving DecidableEq, Repr

/-- Python truthiness of an optional string: `None` and `""` are falsy. -/
def pyTruthyStr : Option String → Bool
  | none => false
  | some s => s ≠ ""

/-- The cache window: `timedelta(minutes=15)` in seconds. -/
def cacheTTL : Nat := 15 * 60

/-- The cache test of `get_fresh_url`:
`not force_refresh and self.current_url and self.url_expiry` together
with `datetime.now() < self.url_expiry` (a `datetime` object is always
truthy, so the third conjunct is just non-`None`). -/
def cacheValid (st : FetcherState) (force_refresh : Bool) (now : Nat) : Bool :=
  !force_refresh && pyTruthyStr st.current_url &&
    match st.url_expiry with
    | some e => decide (now < e)
    | none => false

/-- `get_fresh_url(force_refresh)` at wall-clock time `now`, where
`fetchResult` is what `_fetch_url_from_page()` would return (`none` =
`None`).  Result: the returned URL, the new state, and whether a fetch
(browser session) was performed. -/
def get_fresh_url (st : FetcherState) (force_refresh : Bool) (now : Nat)
    (fetchResult : Option String) : Option String × FetcherState × Bool :=
  if cacheValid st force_refresh now then (st.current_url, st, false)
  else
    match fetchResult with
    | some url =>
      if url ≠ "" then (some url, ⟨some url, some (now + cacheTTL)⟩, true)
      else (some url, st, true)
    | none => (none, st, true)

/-- A sequence of `get_fresh_url(force_refresh=False)` calls, each given
as `(now, fetchResult)`; returns the final state and the number of
fetches performed. -/
def run_url_calls (st : FetcherState) : List (Nat × Option String) → FetcherState × Nat
  | [] => (st, 0)
  | (now, fr) :: rest =>
    let r := get_fresh_url st false now fr
    let rec' := run_url_calls r.2.1 rest
    (rec'.1, (if r.2.2 then 1 else 0) + rec'.2)

theorem get_fresh_url_cache_hit (st : FetcherState) (u : String) (e now : Nat)
    (fr : Option String) (hu : st.current_url = some u) (hne : u ≠ "")
    (he : st.url_expiry = some e) (hlt : now < e) :
    get_fresh_url st false now fr = (some u, st, false) := by
  have hv : cacheValid st false now = true := by
    unfold cacheValid pyTruthyStr
    rw [hu, he]
    simp [hne, hlt]
  unfold get_fresh_url
  rw [if_pos hv, hu]

theorem run_url_calls_all_hits (st : FetcherState) (u : String) (e : Nat)
    (calls : List (Nat × Option String)) (hu : st.current_url = some u)
    (hne : u ≠ "") (he : st.url_expiry = some e)
    (hcalls : ∀ c ∈ calls, c.1 < e) :
    run_url_calls st calls = (st, 0) := by
  induction calls with
  | nil => rfl
  | cons c rest ih =>
    obtain ⟨now, fr⟩ := c
    rw [run_url_calls]
    have hhit := get_fresh_url_cache_hit st u e now fr hu hne he
      (hcalls (now, fr) (List.mem_cons_self _ _))
    rw [hhit]
    have := ih fun c hc => hcalls c (List.mem_cons_of_mem _ hc)
    simp [this]

/-- **C7**: when a cached URL exists and `now` is before its recorded
expiry, `get_fresh_url(force_refresh=False)` returns the cached URL
unchanged and performs no fetch (cache state unmodified); a cache miss
followed by a successful fetch and any number of further calls inside
the resulting 15-minute window performs exactly one fetch in total; and
once the window has elapsed (`e ≤ now`) the next call performs a fetch. -/
theorem c7_url_cache_single_fetch :
    (∀ (st : FetcherState) (u : String) (e now : Nat) (fr : Option String),
        st.current_url = some u → u ≠ "" → st.url_expiry = some e → now < e →
        get_fresh_url st false now fr = (some u, st, false)) ∧
    (∀ (st : FetcherState) (t0 : Nat) (u : String)
        (calls : List (Nat × Option String)),
        cacheValid st false t0 = false → u ≠ "" →
        (∀ c ∈ calls, c.1 < t0 + cacheTTL) →
        (run_url_calls st ((t0, some u) :: calls)).2 = 1) ∧
    (∀ (st : FetcherState) (u : String) (e now : Nat) (fr : Option String),
        st.current_url = some u → st.url_expiry = some e → e ≤ now →
        (get_fresh_url st false now fr).2.2 = true) := by
  refine ⟨get_fresh_url_cache_hit, ?_, ?_⟩
  · intro st t0 u calls hmiss hne hcalls
    rw [run_url_calls]
    have hfetch : get_fresh_url st false t0 (some u) =
        (some u, ⟨some u, some (t0 + cacheTTL)⟩, true) := by
      unfold get_fresh_url
      rw [if_neg (by simp [hmiss])]
      simp [hne]
    rw [hfetch]
    have hrest := run_url_calls_all_hits ⟨some u, some (t0 + cacheTTL)⟩ u
      (t0 + cacheTTL) calls rfl hne rfl hcalls
    simp [hrest]
  · intro st u e now fr hu he hge
    have hv : cacheValid st false now = false := by
      unfold cacheValid
      rw [he]
      simp
      omega
    unfold get_fresh_url
    rw [if_neg (by simp [hv])]
    cases fr with
    | none => rfl
    | some url => by_cases hurl : url = "" <;> simp [hurl]

theorem c7_url_cache_single_fetch_witness :
    get_fresh_url ⟨some "https://x/manifest.m3u8", some 900⟩ false 100 none =
        (some "https://x/manifest.m3u8", ⟨some "https://x/manifest.m3u8", some 900⟩, false) ∧
    (run_url_calls ⟨none, none⟩
        [(0, some "https://x/manifest.m3u8"), (100, none), (899, none)]).2 = 1 ∧
    (get_fresh_url ⟨some "https://x/manifest.m3u8", some 900⟩ false 900 none).2.2 = true :=
  ⟨c7_url_cache_single_fetch.1 _ _ 900 100 none rfl (by decide) rfl (by decide),
   c7_url_cache_single_fetch.2.1 _ 0 _ [(100, none), (899, none)] (by decide) (by decide)
     (by decide),
   c7_url_cache_single_fetch.2.2 _ _ 900 900 none rfl rfl (by decide)⟩

/-! ## Summary fallback (`TranscriptionService._generate_summary`)

The `except` branch of `_generate_summary` computes
`words = transcript.split()` and returns
`" ".join(words[:15]) + "..." if len(words) > 15 else transcript`
(the conditional expression binds the whole concatenation, so the
marker is appended only in the long branch). -/

/-- `str.split()` with no separator: maximal runs of non-whitespace
characters; leading/trailing/repeated whitespace produces no empty
words. `acc` is the current word, reversed. -/
def pySplitAux : List Char → List Char → List String
  | [], acc => if acc.isEmpty then [] else [String.mk acc.reverse]
  | c :: cs, acc =>
    if c.isWhitespace then
      if acc.isEmpty then pySplitAux cs [] else String.mk acc.reverse :: pySplitAux cs []
    else pySplitAux cs (c :: acc)

/-- Python `transcript.split()`. -/
def pySplit (s : String) : List String := pySplitAux s.data []

/-- The deterministic fallback summary of `_generate_summary`'s
exception handler. -/
def generate_summary_fallback (transcript : String) : String :=
  let words := pySplit transcript
  if words.length > 15 then String.intercalate " " (words.take 15) ++ "..." else transcript

/-- A concrete 20-word transcript `"word1 word2 ... word20"`. -/
def twentyWordTranscript : String :=
  "word1 word2 word3 word4 word5 word6 word7 word8 word9 word10 word11 " ++
    "word12 word13 word14 word15 word16 word17 word18 word19 word20"

/-- **C6**: on summarization failure the fallback equals the first 15
words joined by single spaces followed by `"..."` when the transcript
has more than 15 words, and the transcript verbatim otherwise; for the
20-word transcript it is the first 15 words followed by the marker. -/
theorem c6_summary_fallback :
    (∀ transcript : String, 15 < (pySplit transcript).length →
        generate_summary_fallback transcript =
          String.intercalate " " ((pySplit transcript).take 15) ++ "...") ∧
    (∀ transcript : String, (pySplit transcript).length ≤ 15 →
        generate_summary_fallback transcript = transcript) ∧
    generate_summary_fallback twentyWordTranscript =
      "word1 word2 word3 word4 word5 word6 word7 word8 word9 word10 word11 " ++
        "word12 word13 word14 word15" ++ "..." := by
  refine ⟨?_, ?_, by decide⟩
  · intro t h
    unfold generate_summary_fallback
    rw [if_pos h]
  · intro t h
    unfold generate_summary_fallback
    rw [if_neg (by omega)]

theorem c6_summary_fallback_witness :
    generate_summary_fallback twentyWordTranscript =
        String.intercalate " " ((pySplit twentyWordTranscript).take 15) ++ "..." ∧
      generate_summary_fallback "hello world" = "hello world" :=
  ⟨c6_summary_fallback.1 twentyWordTranscript (by decide),
   c6_summary_fallback.2.1 "hello world" (by decide)⟩

/-! ## Transcript retrieval (`TranscriptionService.get_latest_transcripts`)

`get_latest_transcripts(limit=10)` returns `self.latest_transcripts[-limit:]`. -/

/-- Python list slice `l[start:]` for an integer `start`:
negative indices count from the end and clamp at `0`. -/
def pySliceFrom {α : Type _} (l : List α) (start : Int) : List α :=
  if start < 0 then l.drop ((l.length + start).toNat) else l.drop start.toNat

/-- `get_latest_transcripts(limit)` = `latest_transcripts[-limit:]`. -/
def get_latest_transcripts {α : Type _} (latest_transcripts : List α) (limit : Int) :
    List α :=
  pySliceFrom latest_transcripts (-limit)

/-- **C10**: with `limit > 0` the call returns the last
`min limit n` stored records in append order (the length-`min limit n`
suffix); with `limit = 0` it returns the entire stored sequence
(`l[-0:]` is `l[0:]`), not the empty list. -/
theorem c10_get_latest_transcripts :
    (∀ (α : Type) (l : List α) (limit : Int), 0 < limit →
        get_latest_transcripts l limit = l.drop (l.length - limit.toNat) ∧
        (get_latest_transcripts l limit).length = min limit.toNat l.length) ∧
    (∀ (α : Type) (l : List α), get_latest_transcripts l 0 = l) := by
  constructor
  · intro α l limit hpos
    have hneg : -limit < 0 := by omega
    have heq : get_latest_transcripts l limit = l.drop (l.length - limit.toNat) := by
      unfold get_latest_transcripts pySliceFrom
      rw [if_pos hneg]
      congr 1
      omega
    refine ⟨heq, ?_⟩
    rw [heq, List.length_drop]
    omega
  · intro α l
    unfold get_latest_transcripts pySliceFrom
    norm_num

theorem c10_get_latest_transcripts_witness :
    get_latest_transcripts ["r1", "r2", "r3"] 2 = ["r2", "r3"] ∧
      get_latest_transcripts ["r1", "r2", "r3"] 0 = ["r1", "r2", "r3"] :=
  ⟨((c10_get_latest_transcripts.1 String ["r1", "r2", "r3"] 2 (by decide)).1).trans
      (by decide),
   c10_get_latest_transcripts.2 String ["r1", "r2", "r3"]⟩

/-! ## Timestamp extraction (`TranscriptionService._extract_timestamp`)

`_extract_timestamp` computes
`timestamp_str = filename.replace("audio_", "").replace(".wav", "")`
(Python `str.replace` replaces **every** occurrence of the pattern) and
then `datetime.strptime(timestamp_str, "%Y%m%d_%H%M%S")`; a
`ValueError` is caught and `datetime.now()` returned instead. -/

/-- Left-to-right scan of Python `str.replace` with a nonempty pattern
`p :: ps`: where the pattern is a prefix, emit `r` and skip the match,
otherwise keep the character.  `fuel` only needs to dominate the input
length. -/
def replaceAllAux (p : Char) (ps r : List Char) : Nat → List Char → List Char
  | _, [] => []
  | 0, l => l
  | fuel + 1, c :: cs =>
    if (p :: ps).isPrefixOf (c :: cs) then
      r ++ replaceAllAux p ps r fuel (cs.drop ps.length)
    else c :: replaceAllAux p ps r fuel cs

/-- Python `bytes`-free `str.replace` on char lists (all occurrences;
the empty-pattern case, which Python treats specially, never arises in
the source: the patterns are `"audio_"` and `".wav"`). -/
def pyReplaceL (l pat r : List Char) : List Char :=
  match pat with
  | [] => l
  | p :: ps => replaceAllAux p ps r l.length l

/-- Python `s.replace(pat, repl)`. -/
def pyReplace (s pat repl : String) : String :=
  String.mk (pyReplaceL s.data pat.data repl.data)

/-- A naive (proleptic-Gregorian, like Python `datetime`) date-time. -/
structure PyDateTime where
  year : Nat
  month : Nat
  day : Nat
  hour : Nat
  minute : Nat
  second : Nat
  deriving DecidableEq, Repr

def isLeapYear (y : Nat) : Bool :=
  (y % 4 == 0 && y % 100 != 0) || y % 400 == 0

def daysInMonth (y m : Nat) : Nat :=
  if m = 2 then (if isLeapYear y then 29 else 28)
  else if m = 4 ∨ m = 6 ∨ m = 9 ∨ m = 11 then 30
  else 31

/-- The range checks `datetime` applies to its fields (`MINYEAR = 1`). -/
def validDateTime (dt : PyDateTime) : Bool :=
  decide (1 ≤ dt.year) && decide (1 ≤ dt.month) && decide (dt.month ≤ 12) &&
    decide (1 ≤ dt.day) && decide (dt.day ≤ daysInMonth dt.year dt.month) &&
    decide (dt.hour ≤ 23) && decide (dt.minute ≤ 59) && decide (dt.second ≤ 59)

def charDigit (c : Char) : Option Nat :=
  if c.isDigit then some (c.toNat - 48) else none

def parse2 (a b : Char) : Option Nat := do
  let x ← charDigit a
  let y ← charDigit b
  pure (10 * x + y)

def parse4 (a b c d : Char) : Option Nat := do
  let hi ← parse2 a b
  let lo ← parse2 c d
  pure (100 * hi + lo)

/-- Model of `datetime.strptime(s, "%Y%m%d_%H%M%S")` on the fixed-width
form the capture tool produces: four year digits, two digits per
remaining field, one underscore between date and time, with calendar
validation (out-of-range fields raise `ValueError`, modelled as `none`).
CPython additionally tolerates 1-digit month/day/hour fields; that
laxity is not modelled, so `none` means the fixed-width parse fails. -/
def strptime_YmdHMS : List Char → Option PyDateTime
  | [y1, y2, y3, y4, mo1, mo2, d1, d2, '_', h1, h2, mi1, mi2, s1, s2] => do
    let y ← parse4 y1 y2 y3 y4
    let mo ← parse2 mo1 mo2
    let d ← parse2 d1 d2
    let h ← parse2 h1 h2
    let mi ← parse2 mi1 mi2
    let s ← parse2 s1 s2
    let dt : PyDateTime := ⟨y, mo, d, h, mi, s⟩
    if validDateTime dt then some dt else none
  | _ => none

/-- `_extract_timestamp(filename)` with `now` the value `datetime.now()`
would produce: strip every `"audio_"` and `".wav"` occurrence, parse,
and fall back to `now` when the parse raises. -/
def extract_timestamp (filename : String) (now : PyDateTime) : PyDateTime :=
  (strptime_YmdHMS (pyReplace (pyReplace filename "audio_" "") ".wav" "").data).getD now

/-- The filename convention of spec §6, stated from the spec's words:
exactly `audio_<YYYYMMDD>_<HHMMSS>.wav` with all placeholder positions
decimal digits. -/
def specFilenameConvention (filename : String) : Bool :=
  match filename.data with
  | ['a', 'u', 'd', 'i', 'o', '_', y1, y2, y3, y4, mo1, mo2, d1, d2, '_',
      h1, h2, mi1, mi2, s1, s2, '.', 'w', 'a', 'v'] =>
    [y1, y2, y3, y4, mo1, mo2, d1, d2, h1, h2, mi1, mi2, s1, s2].all Char.isDigit
  | _ => false

/-! ### Lemmas about the replace scan -/

theorem replaceAllAux_fuel_irrel (p : Char) (ps r : List Char) :
    ∀ (fuel₁ : Nat) (l : List Char), l.length ≤ fuel₁ →
      ∀ (fuel₂ : Nat), l.length ≤ fuel₂ →
      replaceAllAux p ps r fuel₁ l = replaceAllAux p ps r fuel₂ l := by
  intro fuel₁
  induction fuel₁ with
  | zero =>
    intro l hl fuel₂ _
    have : l = [] := List.length_eq_zero.mp (Nat.le_zero.mp hl)
    subst this
    cases fuel₂ <;> rfl
  | succ f ih =>
    intro l hl fuel₂ h₂
    cases l with
    | nil => cases fuel₂ <;> rfl
    | cons c cs =>
      cases fuel₂ with
      | zero => simp at h₂
      | succ f₂ =>
        rw [replaceAllAux, replaceAllAux]
        have hcs : cs.length ≤ f := by
          simp only [List.length_cons] at hl
          omega
        have hcs₂ : cs.length ≤ f₂ := by
          simp only [List.length_cons] at h₂
          omega
        by_cases hpre : (p :: ps).isPrefixOf (c :: cs) = true
        · rw [if_pos hpre, if_pos hpre]
          congr 1
          have hd : (cs.drop ps.length).length ≤ cs.length := by
            rw [List.length_drop]
            omega
          exact ih _ (le_trans hd hcs) _ (le_trans hd hcs₂)
        · rw [if_neg hpre, if_neg hpre]
          congr 1
          exact ih _ hcs _ hcs₂

theorem replaceAllAux_eq_self (p : Char) (ps r : List Char) :
    ∀ (fuel : Nat) (l : List Char), l.length ≤ fuel →
      (∀ n, (p :: ps).isPrefixOf (l.drop n) = false) →
      replaceAllAux p ps r fuel l = l := by
  intro fuel
  induction fuel with
  | zero =>
    intro l hl _
    have : l = [] := List.length_eq_zero.mp (Nat.le_zero.mp hl)
    subst this
    rfl
  | succ f ih =>
    intro l hl hocc
    cases l with
    | nil => rfl
    | cons c cs =>
      rw [replaceAllAux, if_neg]
      · congr 1
        refine ih cs ?_ fun n => ?_
        · simp only [List.length_cons] at hl
          omega
        · have := hocc (n + 1)
          rwa [List.drop_succ_cons] at this
      · have := hocc 0
        rw [List.drop_zero] at this
        simp [this]

theorem replaceAllAux_head_match (p : Char) (ps r rest : List Char) (fuel : Nat) :
    replaceAllAux p ps r (fuel + 1) ((p :: ps) ++ rest) =
      r ++ replaceAllAux p ps r fuel rest := by
  have hpre : (p :: ps).isPrefixOf (p :: (ps ++ rest)) = true :=
    List.isPrefixOf_iff_prefix.mpr (List.prefix_append _ _)
  show replaceAllAux p ps r (fuel + 1) (p :: (ps ++ rest)) = _
  rw [replaceAllAux, if_pos hpre, List.drop_left]

theorem replaceAllAux_append_no_match (p : Char) (ps r m : List Char) :
    ∀ (l : List Char), (∀ c ∈ l, (p == c) = false) →
      ∀ (fuel : Nat), l.length + m.length ≤ fuel →
      replaceAllAux p ps r fuel (l ++ m) =
        l ++ replaceAllAux p ps r m.length m := by
  intro l
  induction l with
  | nil =>
    intro _ fuel hf
    simpa using replaceAllAux_fuel_irrel p ps r fuel m (by simpa using hf) m.length le_rfl
  | cons c cs ih =>
    intro hl fuel hf
    cases fuel with
    | zero => simp at hf
    | succ f =>
      show replaceAllAux p ps r (f + 1) (c :: (cs ++ m)) = _
      rw [replaceAllAux, if_neg, ih (fun x hx => hl x (List.mem_cons_of_mem _ hx)) f
        (by simp only [List.length_cons] at hf; omega)]
      · rfl
      · rw [List.isPrefixOf, hl c (List.mem_cons_self _ _)]
        simp

theorem isPrefixOf_drop_append_eq_false (p : Char) (ps l m : List Char)
    (hl : ∀ c ∈ l, (p == c) = false)
    (hm : ∀ n, (p :: ps).isPrefixOf (m.drop n) = false) :
    ∀ n, (p :: ps).isPrefixOf ((l ++ m).drop n) = false := by
  induction l with
  | nil => simpa using hm
  | cons c cs ih =>
    intro n
    cases n with
    | zero =>
      rw [List.drop_zero]
      show (p :: ps).isPrefixOf (c :: (cs ++ m)) = false
      rw [List.isPrefixOf, hl c (List.mem_cons_self _ _)]
      simp
    | succ n =>
      show (p :: ps).isPrefixOf ((cs ++ m).drop n) = false
      exact ih (fun x hx => hl x (List.mem_cons_of_mem _ hx)) n

theorem beq_eq_false_of_digit {a : Char} (ha : a.isDigit = false) {c : Char}
    (hc : c.isDigit = true) : (a == c) = false := by
  cases hac : a == c
  · rfl
  · have : a = c := eq_of_beq hac
    subst this
    rw [hc] at ha
    cases ha

theorem replaceAllAux_head_match_fuel (p : Char) (ps r rest : List Char) (fuel : Nat)
    (h : rest.length + 1 ≤ fuel) :
    replaceAllAux p ps r fuel ((p :: ps) ++ rest) =
      r ++ replaceAllAux p ps r rest.length rest := by
  cases fuel with
  | zero => omega
  | succ f =>
    rw [replaceAllAux_head_match]
    congr 1
    exact replaceAllAux_fuel_irrel p ps r f rest (by omega) rest.length le_rfl

theorem isPrefixOf_audio_drop_wav :
    ∀ n, ('a' :: "udio_".data).isPrefixOf ((".wav".data).drop n) = false := by
  intro n
  match n with
  | 0 => decide
  | 1 => decide
  | 2 => decide
  | 3 => decide
  | m + 4 =>
    have h4 : (".wav".data).length = 4 := rfl
    rw [List.drop_eq_nil_of_le (by omega)]
    rfl

/-- Stripping `"audio_"` and `".wav"` from `audio_<core>.wav` leaves
exactly `core` whenever `core` contains neither an `'a'` nor a `'.'`
character (both `str.replace` calls replace all occurrences). -/
theorem extract_timestamp_strip (core : List Char)
    (hchars : ∀ c ∈ core, ('a' == c) = false ∧ ('.' == c) = false)
    (now : PyDateTime) :
    extract_timestamp (String.mk ("audio_".data ++ (core ++ ".wav".data))) now =
      (strptime_YmdHMS core).getD now := by
  have hA : pyReplaceL ("audio_".data ++ (core ++ ".wav".data)) "audio_".data [] =
      core ++ ".wav".data := by
    have h6 : ("audio_".data).length = 6 := rfl
    have hlen : ("audio_".data ++ (core ++ ".wav".data)).length =
        (core ++ ".wav".data).length + 6 := by
      rw [List.length_append, h6]
      omega
    have hstep := replaceAllAux_head_match_fuel 'a' "udio_".data []
      (core ++ ".wav".data) (("audio_".data ++ (core ++ ".wav".data)).length)
      (by omega)
    have hself : replaceAllAux 'a' "udio_".data [] (core ++ ".wav".data).length
        (core ++ ".wav".data) = core ++ ".wav".data := by
      refine replaceAllAux_eq_self _ _ _ _ _ le_rfl ?_
      exact isPrefixOf_drop_append_eq_false _ _ _ _
        (fun c hc => (hchars c hc).1) isPrefixOf_audio_drop_wav
    exact hstep.trans (by rw [hself, List.nil_append])
  have hB : pyReplaceL (core ++ ".wav".data) ".wav".data [] = core := by
    have hwalk := replaceAllAux_append_no_match '.' "wav".data [] ".wav".data core
      (fun c hc => (hchars c hc).2) ((core ++ ".wav".data).length)
      (le_of_eq (List.length_append _ _).symm)
    have htail : replaceAllAux '.' "wav".data [] ((".wav".data).length) ".wav".data = [] := by
      decide
    exact hwalk.trans (by rw [htail, List.append_nil])
  have e1 : pyReplace (String.mk ("audio_".data ++ (core ++ ".wav".data))) "audio_" "" =
      String.mk (core ++ ".wav".data) := congrArg String.mk hA
  have e2 : pyReplace (String.mk (core ++ ".wav".data)) ".wav" "" = String.mk core :=
    congrArg String.mk hB
  show (strptime_YmdHMS (pyReplace (pyReplace
      (String.mk ("audio_".data ++ (core ++ ".wav".data))) "audio_" "") ".wav" "").data).getD
      now = (strptime_YmdHMS core).getD now
  rw [e1, e2]

/-- **C9** (counterexample): the claim says every filename that does not
match the convention falls back to the current wall-clock time.
`audio_20250101_120000.wav.wav` does not match the convention, yet both
`".wav"` occurrences are removed (Python `str.replace` replaces every
occurrence), the residue parses, and the embedded time — not `now` — is
returned. -/
theorem c9_counterexample_nonconvention_name_parses :
    specFilenameConvention "audio_20250101_120000.wav.wav" = false ∧
    extract_timestamp "audio_20250101_120000.wav.wav" ⟨2025, 6, 15, 0, 0, 0⟩ =
      ⟨2025, 1, 1, 12, 0, 0⟩ ∧
    (⟨2025, 1, 1, 12, 0, 0⟩ : PyDateTime) ≠ ⟨2025, 6, 15, 0, 0, 0⟩ :=
  ⟨by decide, by decide, by decide⟩

/-- **C9** (amended): every filename of the convention
`audio_<YYYYMMDD>_<HHMMSS>.wav` whose digits form a valid calendar
date-time parses to exactly the embedded capture time (in particular
`audio_20250101_120000.wav` to 2025-01-01T12:00:00); parse failure does
not raise but falls back to `now` (e.g. for `hello.txt`); but because
both replacements remove every occurrence, some filenames outside the
convention also return an embedded-style time instead of `now`. -/
theorem c9_extract_timestamp_amended
    (y1 y2 y3 y4 mo1 mo2 d1 d2 h1 h2 mi1 mi2 s1 s2 : Char) (now dt : PyDateTime)
    (hdig : ([y1, y2, y3, y4, mo1, mo2, d1, d2, h1, h2, mi1, mi2, s1, s2].all
        Char.isDigit) = true)
    (hparse : strptime_YmdHMS
        [y1, y2, y3, y4, mo1, mo2, d1, d2, '_', h1, h2, mi1, mi2, s1, s2] = some dt) :
    extract_timestamp
        (String.mk ("audio_".data ++
          ([y1, y2, y3, y4, mo1, mo2, d1, d2, '_', h1, h2, mi1, mi2, s1, s2] ++
            ".wav".data))) now = dt ∧
    extract_timestamp "hello.txt" now = now := by
  constructor
  · simp only [List.all_cons, List.all_nil, Bool.and_eq_true, Bool.and_true] at hdig
    obtain ⟨hy1, hy2, hy3, hy4, hmo1, hmo2, hd1, hd2, hh1, hh2, hmi1, hmi2, hs1, hs2⟩ := hdig
    have hchars : ∀ c ∈ [y1, y2, y3, y4, mo1, mo2, d1, d2, '_', h1, h2, mi1, mi2, s1, s2],
        ('a' == c) = false ∧ ('.' == c) = false := by
      intro c hc
      simp only [List.mem_cons, List.not_mem_nil, or_false] at hc
      rcases hc with rfl | rfl | rfl | rfl | rfl | rfl | rfl | rfl | rfl | rfl | rfl | rfl |
        rfl | rfl | rfl
      exacts [⟨beq_eq_false_of_digit (by decide) hy1, beq_eq_false_of_digit (by decide) hy1⟩,
        ⟨beq_eq_false_of_digit (by decide) hy2, beq_eq_false_of_digit (by decide) hy2⟩,
        ⟨beq_eq_false_of_digit (by decide) hy3, beq_eq_false_of_digit (by decide) hy3⟩,
        ⟨beq_eq_false_of_digit (by decide) hy4, beq_eq_false_of_digit (by decide) hy4⟩,
        ⟨beq_eq_false_of_digit (by decide) hmo1, beq_eq_false_of_digit (by decide) hmo1⟩,
        ⟨beq_eq_false_of_digit (by decide) hmo2, beq_eq_false_of_digit (by decide) hmo2⟩,
        ⟨beq_eq_false_of_digit (by decide) hd1, beq_eq_false_of_digit (by decide) hd1⟩,
        ⟨beq_eq_false_of_digit (by decide) hd2, beq_eq_false_of_digit (by decide) hd2⟩,
        ⟨by decide, by decide⟩,
        ⟨beq_eq_false_of_digit (by decide) hh1, beq_eq_false_of_digit (by decide) hh1⟩,
        ⟨beq_eq_false_of_digit (by decide) hh2, beq_eq_false_of_digit (by decide) hh2⟩,
        ⟨beq_eq_false_of_digit (by decide) hmi1, beq_eq_false_of_digit (by decide) hmi1⟩,
        ⟨beq_eq_false_of_digit (by decide) hmi2, beq_eq_false_of_digit (by decide) hmi2⟩,
        ⟨beq_eq_false_of_digit (by decide) hs1, beq_eq_false_of_digit (by decide) hs1⟩,
        ⟨beq_eq_false_of_digit (by decide) hs2, beq_eq_false_of_digit (by decide) hs2⟩]
    rw [extract_timestamp_strip _ hchars now, hparse]
    rfl
  · have hnone : strptime_YmdHMS
        (pyReplace (pyReplace "hello.txt" "audio_" "") ".wav" "").data = none := by decide
    show (strptime_YmdHMS
        (pyReplace (pyReplace "hello.txt" "audio_" "") ".wav" "").data).getD now = now
    rw [hnone, Option.getD_none]

theorem c9_extract_timestamp_amended_witness :
    extract_timestamp
        (String.mk ("audio_".data ++
          (['2', '0', '2', '5', '0', '1', '0', '1', '_', '1', '2', '0', '0', '0', '0'] ++
            ".wav".data)))
        ⟨2025, 6, 15, 0, 0, 0⟩ = ⟨2025, 1, 1, 12, 0, 0⟩ ∧
      extract_timestamp "hello.txt" ⟨2025, 6, 15, 0, 0, 0⟩ = ⟨2025, 6, 15, 0, 0, 0⟩ :=
  c9_extract_timestamp_amended '2' '0' '2' '5' '0' '1' '0' '1' '1' '2' '0' '0' '0' '0'
    ⟨2025, 6, 15, 0, 0, 0⟩ ⟨2025, 1, 1, 12, 0, 0⟩ (by decide) (by decide)

end MonitorAgent
